import Mathlib

/-!
Verification of the session-handle and lazy-binding layer of the Ignite C++
core (`modules/platforms/cpp/core/src/impl/ignite_impl.cpp`).

The embedding models:
* `JniErrorInfo` / `IgniteError` — the gateway error descriptor and the local
  typed error it is translated into;
* `Gateway` — the remote call gateway (`JniContext` operations reached through
  the environment), given as an oracle mapping a peer reference to a result
  `(Option PeerRef, JniErrorInfo)`: `none` is a null `jobject`;
* `IgniteImpl` — the session handle: shared environment id, own `javaRef`
  peer reference, and the two lazy slots `txImpl` / `prjImpl`;
* boundary calls are made observable through a `BoundaryOp` trace returned
  alongside each result, so "exactly one call / no retry / no extra call"
  claims are statements about traces;
* the concurrent one-time-construction protocol of `Lazy` is modelled as an
  interleaving transition system (`LazyProto`) with a mutex guarding the
  empty-to-constructed transition, as described in the spec (the `Lazy`
  template itself is not part of the sources under study).
-/

namespace Ignite

/-- An opaque peer reference (a non-null `jobject`). A nullable `jobject` is
`Option PeerRef`. -/
abbrev PeerRef := Nat

/-- Error descriptor filled in by a gateway call (`JniErrorInfo`):
code, error class name, error message. -/
structure JniErrorInfo where
  code : Int
  errCls : String
  errMsg : String
deriving DecidableEq, Repr

/-- The local typed error (`IgniteError`) carrying code, class and message. -/
structure IgniteError where
  code : Int
  cls : String
  msg : String
deriving DecidableEq, Repr

/-- Modelled from the spec: `IgniteError::SetError` (the error translator) is
not under the sources studied here; per the spec it constructs a local error
object carrying the same code/class/message verbatim, with no information
loss, and a null reference with no descriptor is still a failure. -/
def IgniteError.SetError (code : Int) (cls : String) (msg : String) : IgniteError :=
  ⟨code, cls, msg⟩

/-- One boundary call, recorded with the peer reference it is scoped to:
`processorTransactions` resolves the transactions coordinator,
`processorProjection` resolves the cluster projection,
`forServers` resolves the servers-only subgroup. -/
inductive BoundaryOp where
  | processorTransactions (scope : PeerRef)
  | processorProjection (scope : PeerRef)
  | forServers (scope : PeerRef)
deriving DecidableEq, Repr

/-- The remote call gateway as an oracle: each named boundary operation,
scoped to a peer reference, yields a nullable peer reference and an error
descriptor (`JniContext::ProcessorTransactions`, `ProcessorProjection`, and
the servers-only subgroup resolution used by `ForServers`). -/
structure Gateway where
  processorTransactions : PeerRef → Option PeerRef × JniErrorInfo
  processorProjection : PeerRef → Option PeerRef × JniErrorInfo
  forServers : PeerRef → Option PeerRef × JniErrorInfo

/-- `transactions::TransactionsImpl`: shares the environment (identified by
its id) and owns the peer reference obtained from the boundary call. -/
structure TransactionsImpl where
  env : Nat
  javaRef : PeerRef
deriving DecidableEq, Repr

/-- `cluster::ClusterGroupImpl`: shares the environment and owns the peer
reference obtained from the boundary call. -/
structure ClusterGroupImpl where
  env : Nat
  javaRef : PeerRef
deriving DecidableEq, Repr

/-- `compute::ComputeImpl`: a compute view derived from a cluster group. -/
structure ComputeImpl where
  env : Nat
  javaRef : PeerRef
deriving DecidableEq, Repr

/-- `IgniteImpl`, the session handle: a shared environment (its id), the
handle's own `javaRef`, and the two lazy slots, empty until first resolved
(`txImpl()`, `prjImpl()` in the constructor initializer list). -/
structure IgniteImpl where
  env : Nat
  javaRef : PeerRef
  txImpl : Option TransactionsImpl
  prjImpl : Option ClusterGroupImpl
deriving DecidableEq, Repr

/-- The constructor `IgniteImpl::IgniteImpl(env, javaRef)`: stores the shared
environment and the peer reference and leaves both lazy slots empty (the
`Init` calls only bind the factories, they construct nothing). -/
def IgniteImpl.mkHandle (env : Nat) (javaRef : PeerRef) : IgniteImpl :=
  ⟨env, javaRef, none, none⟩

/-- `IgniteImpl::InternalGetTransactions`: one gateway call
`ProcessorTransactions(javaRef, &jniErr)`; on a null result, translate the
descriptor into an `IgniteError` and throw it; otherwise wrap the returned
reference in a new `TransactionsImpl(env, txJavaRef)`. The trace records the
boundary calls performed. -/
def IgniteImpl.InternalGetTransactions (gw : Gateway) (self : IgniteImpl) :
    Except IgniteError TransactionsImpl × List BoundaryOp :=
  match gw.processorTransactions self.javaRef with
  | (none, jniErr) =>
      (Except.error (IgniteError.SetError jniErr.code jniErr.errCls jniErr.errMsg),
        [BoundaryOp.processorTransactions self.javaRef])
  | (some txJavaRef, _) =>
      (Except.ok ⟨self.env, txJavaRef⟩,
        [BoundaryOp.processorTransactions self.javaRef])

/-- `IgniteImpl::InternalGetProjection`: one gateway call
`ProcessorProjection(javaRef, &jniErr)`; on a null result, translate the
descriptor into an `IgniteError` and throw it; otherwise wrap the returned
reference in a new `ClusterGroupImpl(env, clusterGroupJavaRef)`. -/
def IgniteImpl.InternalGetProjection (gw : Gateway) (self : IgniteImpl) :
    Except IgniteError ClusterGroupImpl × List BoundaryOp :=
  match gw.processorProjection self.javaRef with
  | (none, jniErr) =>
      (Except.error (IgniteError.SetError jniErr.code jniErr.errCls jniErr.errMsg),
        [BoundaryOp.processorProjection self.javaRef])
  | (some cgJavaRef, _) =>
      (Except.ok ⟨self.env, cgJavaRef⟩,
        [BoundaryOp.processorProjection self.javaRef])

/-- Modelled from the spec: the sequential contract of `Lazy<T>::Get()` (the
`Lazy` template is not under the sources studied; the spec gives its state
machine). A constructed slot is returned as is with no boundary call; an
empty slot runs the factory: on success the value is cached, on failure the
error propagates and no value is stored. The concurrent protocol is treated
separately by `LazyProto`. -/
def lazyGet {T : Type} (slot : Option T)
    (factory : Except IgniteError T × List BoundaryOp) :
    Except IgniteError T × Option T × List BoundaryOp :=
  match slot with
  | some v => (Except.ok v, some v, [])
  | none =>
      match factory with
      | (Except.ok v, tr) => (Except.ok v, some v, tr)
      | (Except.error e, tr) => (Except.error e, none, tr)

/-- `IgniteImpl::GetTransactions` (`txImpl.Get()`): resolve the transactions
lazy binding, returning the result, the updated handle and the boundary
trace. -/
def IgniteImpl.GetTransactions (gw : Gateway) (self : IgniteImpl) :
    Except IgniteError TransactionsImpl × IgniteImpl × List BoundaryOp :=
  let r := lazyGet self.txImpl (self.InternalGetTransactions gw)
  (r.1, { self with txImpl := r.2.1 }, r.2.2)

/-- `IgniteImpl::GetProjection` (`prjImpl.Get()`): resolve the cluster-group
lazy binding. -/
def IgniteImpl.GetProjection (gw : Gateway) (self : IgniteImpl) :
    Except IgniteError ClusterGroupImpl × IgniteImpl × List BoundaryOp :=
  let r := lazyGet self.prjImpl (self.InternalGetProjection gw)
  (r.1, { self with prjImpl := r.2.1 }, r.2.2)

/-- Modelled from the spec: `ClusterGroupImpl::ForServers` is not under the
sources studied; per the spec it is the single boundary call "resolve
servers-only subgroup" scoped to this group's peer reference, yielding a
fresh subgroup view sharing the environment, and failing with the translated
error on an error or null reference. -/
def ClusterGroupImpl.ForServers (gw : Gateway) (self : ClusterGroupImpl) :
    Except IgniteError ClusterGroupImpl × List BoundaryOp :=
  match gw.forServers self.javaRef with
  | (none, jniErr) =>
      (Except.error (IgniteError.SetError jniErr.code jniErr.errCls jniErr.errMsg),
        [BoundaryOp.forServers self.javaRef])
  | (some srvRef, _) =>
      (Except.ok ⟨self.env, srvRef⟩,
        [BoundaryOp.forServers self.javaRef])

/-- Modelled from the spec: `ClusterGroupImpl::GetCompute` is not under the
sources studied; per the spec the compute view is derived from the subgroup
with no boundary call of its own ("a pure composition — no additional
boundary call beyond what the two lazy resolutions and the subgroup filter
require"). -/
def ClusterGroupImpl.GetComputeView (self : ClusterGroupImpl) : ComputeImpl :=
  ⟨self.env, self.javaRef⟩

/-- `IgniteImpl::GetCompute`:
`serversCluster = prjImpl.Get().Get()->ForServers(); return
serversCluster.Get()->GetCompute();` — resolve the cluster-group lazy
binding, ask it for its servers-only subgroup, ask that subgroup for its
compute view. Errors from either resolution propagate. -/
def IgniteImpl.GetCompute (gw : Gateway) (self : IgniteImpl) :
    Except IgniteError ComputeImpl × IgniteImpl × List BoundaryOp :=
  let r := lazyGet self.prjImpl (self.InternalGetProjection gw)
  let self1 : IgniteImpl := { self with prjImpl := r.2.1 }
  match r.1 with
  | Except.error e => (Except.error e, self1, r.2.2)
  | Except.ok cg =>
      let fs := cg.ForServers gw
      match fs.1 with
      | Except.error e => (Except.error e, self1, r.2.2 ++ fs.2)
      | Except.ok servers =>
          (Except.ok servers.GetComputeView, self1, r.2.2 ++ fs.2)

/-- `IgniteImpl::~IgniteImpl`: the destructor releases the handle's own
`javaRef` (`JniContext::Release(javaRef)`); the lazy slots then destroy the
views they hold, whose destructors release the peer references those views
own (modelled from the spec for the views, whose destructors are not under
the sources studied). The result lists every peer reference released. -/
def IgniteImpl.destruct (self : IgniteImpl) : List PeerRef :=
  [self.javaRef]
    ++ (match self.txImpl with | some t => [t.javaRef] | none => [])
    ++ (match self.prjImpl with | some c => [c.javaRef] | none => [])

/-! ### The concurrent one-time-construction protocol

Modelled from the spec: the `Lazy` template is not under the sources studied;
per the spec, first construction uses a mutex guarding the transition from the
unconstructed state, the factory's outcome is computed once and cached, and
every caller observes that one cached outcome (the same constructed instance,
or the same failure — the outcome type `A` covers both). Every access to the
slot happens while holding the mutex, so the critical section is one atomic
step of the interleaving model. -/

namespace LazyProto

/-- Program counter of one caller thread: about to acquire the mutex, inside
the critical section, or finished having observed outcome `r`. -/
inductive Pc (A : Type) where
  | start : Pc A
  | locked : Pc A
  | done (r : A) : Pc A
deriving DecidableEq, Repr

/-- Global state of the protocol for `n` caller threads: the slot (empty or
holding the cached outcome), the mutex holder, how many times the factory has
run, and each thread's program counter. -/
structure St (A : Type) (n : Nat) where
  slot : Option A
  lock : Option (Fin n)
  factCount : Nat
  pcs : Fin n → Pc A

/-- Initial state: empty slot, free mutex, factory never run, every thread
about to make its first call. -/
def init (A : Type) (n : Nat) : St A n :=
  ⟨none, none, 0, fun _ => Pc.start⟩

/-- One interleaving step, with factory outcome `v`:
`acquire` takes the free mutex; `runEmpty` is the critical section of the
thread that finds the slot empty (runs the factory once, caches `v`, unlocks,
finishes with `v`); `runCached` is the critical section of a thread that finds
the slot already holding `w` (no factory run, finishes with `w`). -/
inductive Step (A : Type) (v : A) (n : Nat) : St A n → St A n → Prop where
  | acquire (i : Fin n) (s : St A n) :
      s.pcs i = Pc.start → s.lock = none →
      Step A v n s ⟨s.slot, some i, s.factCount, Function.update s.pcs i Pc.locked⟩
  | runEmpty (i : Fin n) (s : St A n) :
      s.pcs i = Pc.locked → s.lock = some i → s.slot = none →
      Step A v n s ⟨some v, none, s.factCount + 1, Function.update s.pcs i (Pc.done v)⟩
  | runCached (i : Fin n) (s : St A n) (w : A) :
      s.pcs i = Pc.locked → s.lock = some i → s.slot = some w →
      Step A v n s ⟨s.slot, none, s.factCount, Function.update s.pcs i (Pc.done w)⟩

/-- States reachable from the initial state by interleaved steps. -/
inductive Reachable (A : Type) (v : A) (n : Nat) : St A n → Prop where
  | refl : Reachable A v n (init A n)
  | tail {s t : St A n} : Reachable A v n s → Step A v n s t → Reachable A v n t

/-- The inductive invariant: the factory has run exactly once when and only
when the slot is filled, the slot can only hold the factory's outcome, every
finished thread observed that outcome with the slot filled, and a thread in
the critical section holds the mutex. -/
def Inv {A : Type} (v : A) {n : Nat} (s : St A n) : Prop :=
  (s.factCount = if s.slot.isSome then 1 else 0)
    ∧ (∀ w, s.slot = some w → w = v)
    ∧ (∀ i r, s.pcs i = Pc.done r → r = v ∧ s.slot.isSome)
    ∧ (∀ i, s.pcs i = Pc.locked → s.lock = some i)

theorem inv_init (A : Type) (v : A) (n : Nat) : Inv v (init A n) := by
  refine ⟨rfl, ?_, ?_, ?_⟩
  · intro w h; simp [init] at h
  · intro i r h; simp [init] at h
  · intro i h; simp [init] at h

theorem inv_step {A : Type} {v : A} {n : Nat} {s t : St A n}
    (hs : Inv v s) (hst : Step A v n s t) : Inv v t := by
  obtain ⟨hc, hw, hd, hl⟩ := hs
  cases hst with
  | acquire i s hi hlock =>
      refine ⟨hc, hw, ?_, ?_⟩
      · intro j r hj
        dsimp only at hj ⊢
        by_cases hij : j = i
        · subst hij; rw [Function.update_same] at hj; simp at hj
        · rw [Function.update_noteq hij] at hj; exact hd j r hj
      · intro j hj
        dsimp only at hj ⊢
        by_cases hij : j = i
        · subst hij; rfl
        · rw [Function.update_noteq hij] at hj
          have h2 := hl j hj
          rw [hlock] at h2
          simp at h2
  | runEmpty i s hi hlock hslot =>
      have h0 : s.factCount = 0 := by rw [hc, hslot]; rfl
      refine ⟨?_, ?_, ?_, ?_⟩
      · dsimp only; rw [h0]; rfl
      · intro w hwe
        dsimp only at hwe
        exact (Option.some.inj hwe).symm
      · intro j r hj
        dsimp only at hj ⊢
        by_cases hij : j = i
        · subst hij; rw [Function.update_same] at hj
          exact ⟨(Pc.done.inj hj).symm, rfl⟩
        · rw [Function.update_noteq hij] at hj
          exact ⟨(hd j r hj).1, rfl⟩
      · intro j hj
        dsimp only at hj ⊢
        by_cases hij : j = i
        · subst hij; rw [Function.update_same] at hj; simp at hj
        · rw [Function.update_noteq hij] at hj
          have h2 := hl j hj
          rw [hlock] at h2
          exact absurd (Option.some.inj h2).symm hij
  | runCached i s w hi hlock hslot =>
      refine ⟨hc, hw, ?_, ?_⟩
      · intro j r hj
        dsimp only at hj ⊢
        by_cases hij : j = i
        · subst hij; rw [Function.update_same] at hj
          refine ⟨(Pc.done.inj hj) ▸ hw w hslot, ?_⟩
          rw [hslot]; rfl
        · rw [Function.update_noteq hij] at hj; exact hd j r hj
      · intro j hj
        dsimp only at hj ⊢
        by_cases hij : j = i
        · subst hij; rw [Function.update_same] at hj; simp at hj
        · rw [Function.update_noteq hij] at hj
          have h2 := hl j hj
          rw [hlock] at h2
          exact absurd (Option.some.inj h2).symm hij

theorem inv_reachable {A : Type} {v : A} {n : Nat} {s : St A n}
    (h : Reachable A v n s) : Inv v s := by
  induction h with
  | refl => exact inv_init A v n
  | tail hr hst ih => exact inv_step ih hst

end LazyProto

/-! ### Concrete gateways used by the witnesses -/

/-- A gateway whose every call fails with descriptor `(7, "X", "boom")`. -/
def gwBoom : Gateway :=
  { processorTransactions := fun _ => (none, ⟨7, "X", "boom"⟩)
    processorProjection := fun _ => (none, ⟨7, "X", "boom"⟩)
    forServers := fun _ => (none, ⟨7, "X", "boom"⟩) }

/-- A gateway whose every call succeeds, returning distinct fresh peer
references per operation. -/
def gwOk : Gateway :=
  { processorTransactions := fun _ => (some 42, ⟨0, "", ""⟩)
    processorProjection := fun _ => (some 10, ⟨0, "", ""⟩)
    forServers := fun _ => (some 11, ⟨0, "", ""⟩) }

/-- A gateway whose every call returns a null reference and an empty (default)
descriptor, the "no error descriptor" case. -/
def gwNullSilent : Gateway :=
  { processorTransactions := fun _ => (none, ⟨0, "", ""⟩)
    processorProjection := fun _ => (none, ⟨0, "", ""⟩)
    forServers := fun _ => (none, ⟨0, "", ""⟩) }

/-! ### Claim theorems -/

/-- C2: for every error descriptor returned by a failed boundary call, the
failure surfaced to the caller carries the same code, class name and message
verbatim — both for the transactions factory and for the projection factory,
the thrown `IgniteError` is built from exactly the descriptor's fields with
no information loss. -/
theorem boundary_error_translated_verbatim (gw : Gateway) (self : IgniteImpl)
    (d1 d2 : JniErrorInfo)
    (htx : gw.processorTransactions self.javaRef = (none, d1))
    (hprj : gw.processorProjection self.javaRef = (none, d2)) :
    (self.InternalGetTransactions gw).1
        = Except.error ⟨d1.code, d1.errCls, d1.errMsg⟩
      ∧ (self.InternalGetProjection gw).1
        = Except.error ⟨d2.code, d2.errCls, d2.errMsg⟩ := by
  constructor
  · simp [IgniteImpl.InternalGetTransactions, htx, IgniteError.SetError]
  · simp [IgniteImpl.InternalGetProjection, hprj, IgniteError.SetError]

theorem boundary_error_translated_verbatim_witness :
    ((IgniteImpl.mkHandle 0 1).InternalGetTransactions gwBoom).1
        = Except.error ⟨7, "X", "boom"⟩
      ∧ ((IgniteImpl.mkHandle 0 1).InternalGetProjection gwBoom).1
        = Except.error ⟨7, "X", "boom"⟩ :=
  boundary_error_translated_verbatim gwBoom (IgniteImpl.mkHandle 0 1)
    ⟨7, "X", "boom"⟩ ⟨7, "X", "boom"⟩ rfl rfl

/-- C4: for every boundary call that returns a null peer reference — whatever
the descriptor, including the default "no descriptor" one — the capability
factory produces a typed failure (an `IgniteError`), never a null or invalid
component. -/
theorem null_ref_yields_typed_failure (gw : Gateway) (self : IgniteImpl)
    (htx : (gw.processorTransactions self.javaRef).1 = none)
    (hprj : (gw.processorProjection self.javaRef).1 = none) :
    (∃ e : IgniteError, (self.InternalGetTransactions gw).1 = Except.error e)
      ∧ (∃ e : IgniteError, (self.InternalGetProjection gw).1 = Except.error e) := by
  constructor
  · cases hp : gw.processorTransactions self.javaRef with
    | mk a d =>
        rw [hp] at htx
        simp only at htx
        subst htx
        exact ⟨IgniteError.SetError d.code d.errCls d.errMsg,
          by simp [IgniteImpl.InternalGetTransactions, hp]⟩
  · cases hp : gw.processorProjection self.javaRef with
    | mk a d =>
        rw [hp] at hprj
        simp only at hprj
        subst hprj
        exact ⟨IgniteError.SetError d.code d.errCls d.errMsg,
          by simp [IgniteImpl.InternalGetProjection, hp]⟩

theorem null_ref_yields_typed_failure_witness :
    (∃ e : IgniteError,
        ((IgniteImpl.mkHandle 0 1).InternalGetTransactions gwNullSilent).1
          = Except.error e)
      ∧ (∃ e : IgniteError,
        ((IgniteImpl.mkHandle 0 1).InternalGetProjection gwNullSilent).1
          = Except.error e) :=
  null_ref_yields_typed_failure gwNullSilent (IgniteImpl.mkHandle 0 1) rfl rfl

/-- C7: every boundary-call failure surfaces immediately: each factory
performs exactly one boundary call — its trace is the one-element list of its
own operation, for every gateway outcome (success or failure alike), so no
local retry ever happens. -/
theorem factory_no_local_retry (gw : Gateway) (self : IgniteImpl) :
    (self.InternalGetTransactions gw).2
        = [BoundaryOp.processorTransactions self.javaRef]
      ∧ (self.InternalGetProjection gw).2
        = [BoundaryOp.processorProjection self.javaRef] := by
  constructor
  · cases hp : gw.processorTransactions self.javaRef with
    | mk a d => cases a <;> simp [IgniteImpl.InternalGetTransactions, hp]
  · cases hp : gw.processorProjection self.javaRef with
    | mk a d => cases a <;> simp [IgniteImpl.InternalGetProjection, hp]

/-- C5: `GetTransactions()` resolves its lazy binding: on first call (empty
slot) it issues exactly the "resolve transactions coordinator" boundary call
scoped to the session's own peer reference; on success the returned reference
is wrapped in a new `TransactionsImpl`; on an error or null reference the
translated `IgniteError` is the failure. -/
theorem getTransactions_first_call_resolution (gw : Gateway)
    (env jr r : Nat) (d : JniErrorInfo) :
    ((IgniteImpl.mkHandle env jr).GetTransactions gw).2.2
        = [BoundaryOp.processorTransactions jr]
      ∧ (gw.processorTransactions jr = (some r, d) →
          ((IgniteImpl.mkHandle env jr).GetTransactions gw).1
            = Except.ok ⟨env, r⟩)
      ∧ (gw.processorTransactions jr = (none, d) →
          ((IgniteImpl.mkHandle env jr).GetTransactions gw).1
            = Except.error ⟨d.code, d.errCls, d.errMsg⟩) := by
  refine ⟨?_, ?_, ?_⟩
  · cases hp : gw.processorTransactions jr with
    | mk a e =>
        cases a <;>
          simp [IgniteImpl.GetTransactions, IgniteImpl.mkHandle, lazyGet,
            IgniteImpl.InternalGetTransactions, hp]
  · intro hp
    simp [IgniteImpl.GetTransactions, IgniteImpl.mkHandle, lazyGet,
      IgniteImpl.InternalGetTransactions, hp]
  · intro hp
    simp [IgniteImpl.GetTransactions, IgniteImpl.mkHandle, lazyGet,
      IgniteImpl.InternalGetTransactions, hp, IgniteError.SetError]

theorem getTransactions_first_call_resolution_witness :
    ((IgniteImpl.mkHandle 0 1).GetTransactions gwOk).1 = Except.ok ⟨0, 42⟩
      ∧ ((IgniteImpl.mkHandle 0 1).GetTransactions gwBoom).1
        = Except.error ⟨7, "X", "boom"⟩ :=
  ⟨(getTransactions_first_call_resolution gwOk 0 1 42 ⟨0, "", ""⟩).2.1 rfl,
   (getTransactions_first_call_resolution gwBoom 0 1 0 ⟨7, "X", "boom"⟩).2.2 rfl⟩

/-- C6: destroying a session handle whose lazy slots were never constructed
releases exactly the handle's own peer reference and nothing else: one
release of `javaRef`, no release of never-constructed references. -/
theorem destructor_releases_own_ref_once (self : IgniteImpl)
    (htx : self.txImpl = none) (hprj : self.prjImpl = none) :
    self.destruct = [self.javaRef]
      ∧ self.destruct.count self.javaRef = 1 := by
  have h : self.destruct = [self.javaRef] := by
    simp [IgniteImpl.destruct, htx, hprj]
  exact ⟨h, by simp [h]⟩

theorem destructor_releases_own_ref_once_witness :
    (IgniteImpl.mkHandle 0 1).destruct = [1]
      ∧ (IgniteImpl.mkHandle 0 1).destruct.count 1 = 1 :=
  destructor_releases_own_ref_once (IgniteImpl.mkHandle 0 1) rfl rfl

/-- C8: every successfully resolved view wraps exactly the fresh peer
reference returned by its boundary call — not the session handle's own
`javaRef` — and holds the same shared environment as the handle rather than
a copy of its own. -/
theorem resolved_view_fresh_ref_shared_env (gw : Gateway) (self : IgniteImpl)
    (rtx rprj : PeerRef) (d1 d2 : JniErrorInfo)
    (htx : gw.processorTransactions self.javaRef = (some rtx, d1))
    (hprj : gw.processorProjection self.javaRef = (some rprj, d2)) :
    ((self.InternalGetTransactions gw).1 = Except.ok ⟨self.env, rtx⟩)
      ∧ ((self.InternalGetProjection gw).1 = Except.ok ⟨self.env, rprj⟩)
      ∧ (∀ t : TransactionsImpl, (self.InternalGetTransactions gw).1 = Except.ok t →
          t.env = self.env ∧ t.javaRef = rtx)
      ∧ (∀ c : ClusterGroupImpl, (self.InternalGetProjection gw).1 = Except.ok c →
          c.env = self.env ∧ c.javaRef = rprj) := by
  have h1 : (self.InternalGetTransactions gw).1 = Except.ok ⟨self.env, rtx⟩ := by
    simp [IgniteImpl.InternalGetTransactions, htx]
  have h2 : (self.InternalGetProjection gw).1 = Except.ok ⟨self.env, rprj⟩ := by
    simp [IgniteImpl.InternalGetProjection, hprj]
  refine ⟨h1, h2, ?_, ?_⟩
  · intro t ht
    rw [h1] at ht
    cases Except.ok.inj ht
    exact ⟨rfl, rfl⟩
  · intro c hc
    rw [h2] at hc
    cases Except.ok.inj hc
    exact ⟨rfl, rfl⟩

theorem resolved_view_fresh_ref_shared_env_witness :
    ((IgniteImpl.mkHandle 0 1).InternalGetTransactions gwOk).1
        = Except.ok ⟨0, 42⟩
      ∧ ((IgniteImpl.mkHandle 0 1).InternalGetProjection gwOk).1
        = Except.ok ⟨0, 10⟩ :=
  ⟨(resolved_view_fresh_ref_shared_env gwOk (IgniteImpl.mkHandle 0 1)
      42 10 ⟨0, "", ""⟩ ⟨0, "", ""⟩ rfl rfl).1,
   (resolved_view_fresh_ref_shared_env gwOk (IgniteImpl.mkHandle 0 1)
      42 10 ⟨0, "", ""⟩ ⟨0, "", ""⟩ rfl rfl).2.1⟩

/-- C9: when a factory's boundary resolution fails (null peer reference), the
caller receives the error and no view is constructed: the resolution result
is a failure and the lazy slot still holds no value afterwards. -/
theorem failed_factory_leaves_slot_empty (gw : Gateway) (env jr : Nat)
    (htx : (gw.processorTransactions jr).1 = none)
    (hprj : (gw.processorProjection jr).1 = none) :
    (((IgniteImpl.mkHandle env jr).GetTransactions gw).1.isOk = false
      ∧ ((IgniteImpl.mkHandle env jr).GetTransactions gw).2.1.txImpl = none)
      ∧ (((IgniteImpl.mkHandle env jr).GetProjection gw).1.isOk = false
      ∧ ((IgniteImpl.mkHandle env jr).GetProjection gw).2.1.prjImpl = none) := by
  constructor
  · cases hp : gw.processorTransactions jr with
    | mk a d =>
        rw [hp] at htx
        simp only at htx
        subst htx
        constructor <;>
          simp [IgniteImpl.GetTransactions, IgniteImpl.mkHandle, lazyGet,
            IgniteImpl.InternalGetTransactions, hp, Except.isOk, Except.toBool]
  · cases hp : gw.processorProjection jr with
    | mk a d =>
        rw [hp] at hprj
        simp only at hprj
        subst hprj
        constructor <;>
          simp [IgniteImpl.GetProjection, IgniteImpl.mkHandle, lazyGet,
            IgniteImpl.InternalGetProjection, hp, Except.isOk, Except.toBool]

theorem failed_factory_leaves_slot_empty_witness :
    (((IgniteImpl.mkHandle 0 1).GetTransactions gwBoom).1.isOk = false
      ∧ ((IgniteImpl.mkHandle 0 1).GetTransactions gwBoom).2.1.txImpl = none)
      ∧ (((IgniteImpl.mkHandle 0 1).GetProjection gwBoom).1.isOk = false
      ∧ ((IgniteImpl.mkHandle 0 1).GetProjection gwBoom).2.1.prjImpl = none) :=
  failed_factory_leaves_slot_empty gwBoom 0 1 rfl rfl

/-- C3: `GetCompute()` on a fresh handle (no accessor called before) succeeds
when the gateway does, and its boundary trace is exactly the two necessary
resolutions in order — the cluster projection scoped to the handle's own
reference, then the servers-only subgroup scoped to the projection's
reference — and no more. -/
theorem getCompute_exactly_two_resolutions (gw : Gateway)
    (env jr r1 r2 : Nat) (d1 d2 : JniErrorInfo)
    (h1 : gw.processorProjection jr = (some r1, d1))
    (h2 : gw.forServers r1 = (some r2, d2)) :
    ((IgniteImpl.mkHandle env jr).GetCompute gw).2.2
        = [BoundaryOp.processorProjection jr, BoundaryOp.forServers r1]
      ∧ ((IgniteImpl.mkHandle env jr).GetCompute gw).1 = Except.ok ⟨env, r2⟩ := by
  constructor <;>
    simp [IgniteImpl.GetCompute, IgniteImpl.mkHandle, lazyGet,
      IgniteImpl.InternalGetProjection, ClusterGroupImpl.ForServers,
      ClusterGroupImpl.GetComputeView, h1, h2]

theorem getCompute_exactly_two_resolutions_witness :
    ((IgniteImpl.mkHandle 0 1).GetCompute gwOk).2.2
        = [BoundaryOp.processorProjection 1, BoundaryOp.forServers 10]
      ∧ ((IgniteImpl.mkHandle 0 1).GetCompute gwOk).1 = Except.ok ⟨0, 11⟩ :=
  getCompute_exactly_two_resolutions gwOk 0 1 10 11 ⟨0, "", ""⟩ ⟨0, "", ""⟩ rfl rfl

/-- The handle returned by `GetCompute` differs from the input handle only in
the cluster-projection lazy slot. -/
theorem getCompute_state (gw : Gateway) (self : IgniteImpl) :
    (self.GetCompute gw).2.1
      = { self with
          prjImpl := (lazyGet self.prjImpl (self.InternalGetProjection gw)).2.1 } := by
  unfold IgniteImpl.GetCompute
  cases hr : (lazyGet self.prjImpl (self.InternalGetProjection gw)).1 with
  | error e => simp [hr]
  | ok cg =>
      cases hf : (cg.ForServers gw).1 with
      | error e => simp [hr, hf]
      | ok servers => simp [hr, hf]

/-- C10: `GetCompute()` touches only the cluster-projection lazy binding: the
transactions binding, the session's own peer reference and the shared
environment are unchanged by the call, for every gateway and every handle
state. -/
theorem getCompute_frame (gw : Gateway) (self : IgniteImpl) :
    (self.GetCompute gw).2.1.txImpl = self.txImpl
      ∧ (self.GetCompute gw).2.1.javaRef = self.javaRef
      ∧ (self.GetCompute gw).2.1.env = self.env := by
  rw [getCompute_state]
  exact ⟨rfl, rfl, rfl⟩

/-- C1: in the concurrent first-construction protocol, for every number `n`
of racing caller threads and every complete execution (every thread finished),
the factory has executed exactly once and every caller observed the factory's
one outcome — the same constructed instance or the same failure; losing
callers never re-invoke the factory. -/
theorem lazy_factory_runs_once_all_observe_winner {A : Type} (v : A)
    (n : Nat) (s : LazyProto.St A n)
    (hr : LazyProto.Reachable A v n s) (hpos : 0 < n)
    (hdone : ∀ i : Fin n, ∃ r : A, s.pcs i = LazyProto.Pc.done r) :
    s.factCount = 1
      ∧ ∀ (i : Fin n) (r : A), s.pcs i = LazyProto.Pc.done r → r = v := by
  obtain ⟨hc, hw, hd, hl⟩ := LazyProto.inv_reachable hr
  obtain ⟨r0, hr0⟩ := hdone ⟨0, hpos⟩
  have hsome := (hd _ r0 hr0).2
  constructor
  · rw [hc, hsome]; rfl
  · intro i r hi
    exact (hd i r hi).1

/-- The pcs function reached by the concrete two-thread run used as witness:
thread 0 acquires, runs the factory and finishes; thread 1 acquires and reads
the cached outcome. -/
def lazyRunPcs : Fin 2 → LazyProto.Pc Nat :=
  Function.update
    (Function.update
      (Function.update
        (Function.update (fun _ => LazyProto.Pc.start) 0 LazyProto.Pc.locked)
        0 (LazyProto.Pc.done 5))
      1 LazyProto.Pc.locked)
    1 (LazyProto.Pc.done 5)

/-- The final state of that concrete run. -/
def lazyRunFinal : LazyProto.St Nat 2 :=
  ⟨some 5, none, 1, lazyRunPcs⟩

theorem lazy_factory_runs_once_all_observe_winner_witness :
    lazyRunFinal.factCount = 1
      ∧ lazyRunFinal.pcs 0 = LazyProto.Pc.done 5
      ∧ lazyRunFinal.pcs 1 = LazyProto.Pc.done 5 := by
  have t0 : LazyProto.Reachable Nat 5 2 (LazyProto.init Nat 2) :=
    LazyProto.Reachable.refl
  have t1 := LazyProto.Reachable.tail t0
    (LazyProto.Step.acquire 0 (LazyProto.init Nat 2) rfl rfl)
  have t2 := LazyProto.Reachable.tail t1
    (LazyProto.Step.runEmpty 0 _ (by decide) rfl rfl)
  have t3 := LazyProto.Reachable.tail t2
    (LazyProto.Step.acquire 1 _ (by decide) rfl)
  have t4 := LazyProto.Reachable.tail t3
    (LazyProto.Step.runCached 1 _ 5 (by decide) rfl rfl)
  have hreach : LazyProto.Reachable Nat 5 2 lazyRunFinal := t4
  have hdone : ∀ i : Fin 2, ∃ r : Nat, lazyRunFinal.pcs i = LazyProto.Pc.done r := by
    intro i
    fin_cases i
    · exact ⟨5, by decide⟩
    · exact ⟨5, by decide⟩
  refine ⟨(lazy_factory_runs_once_all_observe_winner 5 2 lazyRunFinal hreach
    (by decide) hdone).1, by decide, by decide⟩

end Ignite
